import Mathlib

/-!
Verification development for the resume parsing and analysis pipeline
(`resume_parser.py`, `langflow_chain.py`).

Strings are modelled as `List Char` (`Str`).  Python string operations
(`split`, `strip`, `isupper`, `lower`, `title`) are embedded as executable
Lean functions over `Str`.  The regular-expression searches performed by
`ResumeParser` are embedded by a small backtracking matcher over token
lists; every pattern used by the source is a sequence of character-class
repetitions, literal characters, word boundaries and a single capture
group, so a token list represents each pattern exactly, and a regex
alternation `(a|b)rest` is represented by the pattern list
`[a·rest, b·rest]` tried in order (the backtracking order of `re`).
-/

namespace Resume

abbrev Str := List Char

/-- Python whitespace for `str.strip` and the `\s` class (ASCII part). -/
def isPySpace (c : Char) : Bool :=
  c = ' ' || c = '\t' || c = '\n' || c = '\r' || c = '\x0b' || c = '\x0c'

/-- Drop leading whitespace, as the left half of Python `str.strip()`. -/
def strip_left (s : Str) : Str := s.dropWhile isPySpace

/-- Drop trailing whitespace, as the right half of Python `str.strip()`. -/
def strip_right : Str → Str
  | [] => []
  | c :: rest =>
    match strip_right rest with
    | [] => if isPySpace c then [] else [c]
    | d :: ds => c :: d :: ds

/-- Python `str.strip()`: remove leading and trailing whitespace. -/
def pyStrip (s : Str) : Str := strip_left (strip_right s)

/-- Python `str.split(sep)` for a one-character separator: every occurrence
separates, empty chunks are kept, and the empty string yields `[[]]`. -/
def split_on_char (sep : Char) : Str → List Str
  | [] => [[]]
  | c :: rest =>
    let r := split_on_char sep rest
    if c = sep then [] :: r
    else
      match r with
      | [] => [[c]]
      | l :: ls => (c :: l) :: ls

/-- `text.split('\n')`. -/
def split_lines (text : Str) : List Str := split_on_char '\n' text

/-- Python `re.split(r'[,•]', s)`: split on every comma or bullet. -/
def split_comma_bullet : Str → List Str
  | [] => [[]]
  | c :: rest =>
    let r := split_comma_bullet rest
    if c = ',' || c = '•' then [] :: r
    else
      match r with
      | [] => [[c]]
      | l :: ls => (c :: l) :: ls

/-- Join lines with a single `'\n'` between consecutive lines. -/
def nl_join : List Str → Str
  | [] => []
  | [x] => x
  | x :: xs => x ++ '\n' :: nl_join xs

/-- Python `str.isupper()` (ASCII): at least one cased character and no
lowercase character. -/
def py_isupper (s : Str) : Bool :=
  s.any Char.isUpper && s.all (fun c => !c.isLower)

/-- Python `str.lower()` (ASCII). -/
def py_lower (s : Str) : Str := s.map Char.toLower

/-- A line contains no newline (it is a single line of a text). -/
def no_nl (s : Str) : Bool := s.all (fun c => c ≠ '\n')

/-- `needle in hay` for Python strings: contiguous substring test. -/
def has_sub (needle : Str) : Str → Bool
  | [] => needle.isEmpty
  | c :: rest => needle.isPrefixOf (c :: rest) || has_sub needle rest

/-- Python `\w` (ASCII): letters, digits and underscore. -/
def isWordChar (c : Char) : Bool := c.isAlphanum || c = '_'

/-!
## Regular-expression engine

Each pattern of `ResumeParser.__init__` and of
`_extract_work_experience` is a sequence of the following elements, so a
pattern is a `List Tok`; a top-level alternation or optional group is
expanded into several token lists tried in order, which reproduces the
backtracking order of Python `re`.
-/

/-- One element of a regex pattern. -/
inductive Tok where
  /-- A single character of a class (a literal `c` is the class `· = c`). -/
  | one (p : Char → Bool)
  /-- `X{n,}` on a class, greedy (with `n = 1` this is `X+`). -/
  | atLeast (n : Nat) (p : Char → Bool)
  /-- `X{lo,hi}` on a class, greedy (`X?` is `X{0,1}`, `X{n}` is `X{n,n}`). -/
  | between (lo hi : Nat) (p : Char → Bool)
  /-- `\b`, a word boundary. -/
  | wb
  /-- `(X+)` — the single capture group used by the source patterns. -/
  | grp1 (p : Char → Bool)

/-- A partial-match state: the character just before the current position,
the remaining suffix, and the capture of group 1 when one was taken. -/
structure MState where
  prev : Option Char
  rest : Str
  grp : Option Str
deriving Repr

/-- `[hi, hi - 1, ..., lo]`: the candidate repetition counts of a greedy
class repetition, longest first. -/
def countdown (hi lo : Nat) : List Nat := (List.range' lo (hi + 1 - lo)).reverse

/-- The last character of `consumed`, or `pr` when nothing was consumed. -/
def last_char (consumed : Str) (pr : Option Char) : Option Char :=
  match consumed.getLast? with
  | some c => some c
  | none => pr

/-- Match a token list at the start of `s` (the character before `s` being
`pr`).  Results are returned in backtracking priority order, greediest
first; each result is the state after consuming a prefix of `s`. -/
def matchToks : List Tok → Option Char → Str → List MState
  | [], pr, s => [⟨pr, s, none⟩]
  | Tok.one p :: ts, _pr, s =>
    match s with
    | [] => []
    | c :: rest => if p c then matchToks ts (some c) rest else []
  | Tok.atLeast n p :: ts, pr, s =>
    let run := s.takeWhile p
    (countdown run.length n).flatMap fun k =>
      matchToks ts (last_char (s.take k) pr) (s.drop k)
  | Tok.between lo hi p :: ts, pr, s =>
    let run := s.takeWhile p
    (countdown (min run.length hi) lo).flatMap fun k =>
      matchToks ts (last_char (s.take k) pr) (s.drop k)
  | Tok.wb :: ts, pr, s =>
    let lw := match pr with | some c => isWordChar c | none => false
    let rw := match s with | c :: _ => isWordChar c | [] => false
    if lw != rw then matchToks ts pr s else []
  | Tok.grp1 p :: ts, pr, s =>
    let run := s.takeWhile p
    (countdown run.length 1).flatMap fun k =>
      (matchToks ts (last_char (s.take k) pr) (s.drop k)).map fun st =>
        { st with grp := some (s.take k) }

/-- Try each pattern at the current position, in order; on the first
pattern with a match take its highest-priority result, returning
`(group 0, group 1)` where group 0 is the consumed text. -/
def tryPats : List (List Tok) → Option Char → Str → Option (Str × Option Str)
  | [], _, _ => none
  | p :: ps, pr, s =>
    match matchToks p pr s with
    | [] => tryPats ps pr s
    | st :: _ => some (s.take (s.length - st.rest.length), st.grp)

/-- `re.search`: try the pattern at every position, left to right. -/
def searchFrom (pats : List (List Tok)) (pr : Option Char) (s : Str) :
    Option (Str × Option Str) :=
  match tryPats pats pr s with
  | some r => some r
  | none =>
    match s with
    | [] => none
    | c :: rest => searchFrom pats (some c) rest

/-- `re.search(pattern, text)` for a pattern given as alternative token
lists; `none` models a failed search. -/
def re_search (pats : List (List Tok)) (text : Str) : Option (Str × Option Str) :=
  searchFrom pats none text

/-!
## The patterns of `ResumeParser.__init__` and `_extract_work_experience`
-/

/-- The characters of `[A-Za-z0-9._%+-]` (local part of the email pattern). -/
def emailLocalChar (c : Char) : Bool :=
  c.isAlphanum || c = '.' || c = '_' || c = '%' || c = '+' || c = '-'

/-- The characters of `[A-Za-z0-9.-]` (domain part of the email pattern). -/
def emailDomainChar (c : Char) : Bool := c.isAlphanum || c = '.' || c = '-'

/-- The characters of `[A-Z|a-z]` (the class as written in the source,
which also contains the literal bar). -/
def tldChar (c : Char) : Bool := c.isAlpha || c = '|'

/-- A sequence of literal characters. -/
def lit_toks (w : Str) : List Tok := w.map fun c => Tok.one (fun d => d = c)

/-- `self.email_pattern = r'\b[A-Za-z0-9._%+-]+@[A-Za-z0-9.-]+\.[A-Z|a-z]{2,}\b'` -/
def email_pats : List (List Tok) :=
  [[Tok.wb, Tok.atLeast 1 emailLocalChar, Tok.one (fun c => c = '@'),
    Tok.atLeast 1 emailDomainChar, Tok.one (fun c => c = '.'),
    Tok.atLeast 2 tldChar, Tok.wb]]

/-- The characters of `[\s-]`. -/
def spaceDashChar (c : Char) : Bool := isPySpace c || c = '-'

/-- The characters of `[\s.-]`. -/
def sepChar (c : Char) : Bool := isPySpace c || c = '.' || c = '-'

/-- The part of the phone pattern after the optional international prefix:
`\(?\d{3}\)?[\s.-]?\d{3}[\s.-]?\d{4}`. -/
def phone_core : List Tok :=
  [Tok.between 0 1 (fun c => c = '('), Tok.between 3 3 Char.isDigit,
   Tok.between 0 1 (fun c => c = ')'), Tok.between 0 1 sepChar,
   Tok.between 3 3 Char.isDigit, Tok.between 0 1 sepChar,
   Tok.between 4 4 Char.isDigit]

/-- `self.phone_pattern = r'(\+\d{1,3}[\s-]?)?\(?\d{3}\)?[\s.-]?\d{3}[\s.-]?\d{4}'`;
the optional group `(\+\d{1,3}[\s-]?)?` is expanded into the alternative
with the group taken (tried first, as `re` does) and the one without. -/
def phone_pats : List (List Tok) :=
  [(Tok.one (fun c => c = '+') :: Tok.between 1 3 Char.isDigit ::
      Tok.between 0 1 spaceDashChar :: phone_core),
   phone_core]

/-- The characters of `[A-Za-z0-9_-]` (profile handles). -/
def handleChar (c : Char) : Bool := c.isAlphanum || c = '_' || c = '-'

/-- `self.github_pattern = r'github\.com/([A-Za-z0-9_-]+)'` -/
def github_pats : List (List Tok) :=
  [lit_toks ("github".data) ++ [Tok.one (fun c => c = '.')] ++
   lit_toks ("com/".data) ++ [Tok.grp1 handleChar]]

/-- `self.linkedin_pattern = r'linkedin\.com/in/([A-Za-z0-9_-]+)'` -/
def linkedin_pats : List (List Tok) :=
  [lit_toks ("linkedin".data) ++ [Tok.one (fun c => c = '.')] ++
   lit_toks ("com/in/".data) ++ [Tok.grp1 handleChar]]

/-- The month names of the work-experience marker pattern, in the order of
the source alternation (May appears twice, as in the source). -/
def month_names : List Str :=
  (["Jan", "Feb", "Mar", "Apr", "May", "Jun", "Jul", "Aug", "Sep", "Oct",
    "Nov", "Dec", "January", "February", "March", "April", "May", "June",
    "July", "August", "September", "October", "November", "December"]).map
    String.data

/-- `r'\b(Jan|...|December)\s+\d{4}\b'`: the alternation is expanded into
one token list per month name, tried in source order. -/
def month_pats : List (List Tok) :=
  month_names.map fun m =>
    Tok.wb :: lit_toks m ++
      [Tok.atLeast 1 isPySpace, Tok.between 4 4 Char.isDigit, Tok.wb]

/-- The characters of `[A-Za-z0-9\s]` (the company pattern class). -/
def companyChar (c : Char) : Bool := c.isAlphanum || isPySpace c

/-- The characters of `[A-Za-z\s]` (the position pattern class). -/
def positionChar (c : Char) : Bool := c.isAlpha || isPySpace c

/-- `r'([A-Za-z0-9\s]+)'` of `_extract_work_experience`. -/
def company_pats : List (List Tok) := [[Tok.grp1 companyChar]]

/-- `r'([A-Za-z\s]+)'` of `_extract_work_experience`. -/
def position_pats : List (List Tok) := [[Tok.grp1 positionChar]]

/-!
## Data model (`resume_parser.py` pydantic models)
-/

/-- `class Education(BaseModel)`. -/
structure Education where
  institution : Str
  degree : Str
  field_of_study : Option Str := none
  graduation_date : Option Str := none
deriving Repr, DecidableEq

/-- `class WorkExperience(BaseModel)`. -/
structure WorkExperience where
  company : Str
  position : Str
  start_date : Option Str := none
  end_date : Option Str := none
  description : Option Str := none
deriving Repr, DecidableEq

/-- `class PersonalInfo(BaseModel)`. -/
structure PersonalInfo where
  name : Option Str := none
  email : Option Str := none
  phone : Option Str := none
  location : Option Str := none
  github : Option Str := none
  linkedin : Option Str := none
  portfolio : Option Str := none
deriving Repr, DecidableEq

/-- `class ResumeData(BaseModel)`. -/
structure ResumeData where
  personal_info : PersonalInfo
  education : List Education
  work_experience : List WorkExperience
  skills : List Str
  certifications : List Str
  raw_text : Str
deriving Repr, DecidableEq

/-- Equality of parse outcomes is decidable (used to evaluate concrete
parses). -/
instance : DecidableEq (Except Str ResumeData) := fun a b =>
  match a, b with
  | Except.error x, Except.error y =>
    if h : x = y then Decidable.isTrue (by rw [h])
    else Decidable.isFalse (by simp [h])
  | Except.ok x, Except.ok y =>
    if h : x = y then Decidable.isTrue (by rw [h])
    else Decidable.isFalse (by simp [h])
  | Except.error _, Except.ok _ => Decidable.isFalse (by simp)
  | Except.ok _, Except.error _ => Decidable.isFalse (by simp)

/-!
## `ResumeParser._extract_section`
-/

/-- `any(header in line for header in section_headers)`. -/
def line_has_header (headers : List Str) (line : Str) : Bool :=
  headers.any fun h => has_sub h line

/-- `next_line.isupper() and len(next_line.strip()) > 0`: the condition on
the next line that stops section accumulation. -/
def upper_boundary (line : Str) : Bool :=
  py_isupper line && !(pyStrip line).isEmpty

/-- The line scan of `_extract_section`: a header line switches
`in_section` on and is skipped; once in the section, the scan stops
(returning what was accumulated) when the NEXT line is a non-blank
all-uppercase line; otherwise the current line plus `"\n"` is
accumulated.  Accumulation is rendered by prepending to the recursive
result, which equals the source's append-then-return accumulator. -/
def section_loop (headers : List Str) : List Str → Bool → Str
  | [], _ => []
  | line :: rest, inSec =>
    if line_has_header headers line then section_loop headers rest true
    else if inSec &&
        (match rest with | next :: _ => upper_boundary next | [] => false) then
      []
    else if inSec then line ++ '\n' :: section_loop headers rest inSec
    else section_loop headers rest inSec

/-- `_extract_section(text, section_headers)`. -/
def extract_section (text : Str) (headers : List Str) : Str :=
  pyStrip (section_loop headers (split_lines text) false)

/-!
## Field extractors
-/

/-- The alias list of `_extract_education`. -/
def education_headers : List Str :=
  (["EDUCATION", "Education", "ACADEMIC BACKGROUND"]).map String.data

/-- The degree keywords of `_extract_education`. -/
def degree_keywords : List Str :=
  (["Bachelor", "Master", "PhD", "B.S.", "M.S.", "Ph.D"]).map String.data

/-- `any(degree in line for degree in [...])`. -/
def line_has_degree (line : Str) : Bool :=
  degree_keywords.any fun k => has_sub k line

/-- The `Education` built from one keyword line: the line is split on
commas, the first token stripped is the degree, the second (when present)
stripped is the institution, else the empty string. -/
def education_of_line (line : Str) : Education :=
  let parts := split_on_char ',' line
  let degree :=
    match parts with
    | [] => pyStrip line
    | p0 :: _ => pyStrip p0
  let institution :=
    match parts with
    | _ :: p1 :: _ => pyStrip p1
    | _ => []
  { institution := institution, degree := degree }

/-- The line loop of `_extract_education`: blank lines are skipped, a
keyword line appends the in-progress record and starts a new one, other
lines are ignored, and the final in-progress record is flushed. -/
def education_loop : List Str → Option Education → List Education
  | [], cur =>
    (match cur with
     | some e => [e]
     | none => [])
  | line :: rest, cur =>
    if (pyStrip line).isEmpty then education_loop rest cur
    else if line_has_degree line then
      match cur with
      | some e => e :: education_loop rest (some (education_of_line line))
      | none => education_loop rest (some (education_of_line line))
    else education_loop rest cur

/-- The body of `_extract_education` applied to an education-section text. -/
def education_from_section (section_text : Str) : List Education :=
  education_loop (split_lines section_text) none

/-- `_extract_education(text)`. -/
def extract_education (text : Str) : List Education :=
  let education_section := extract_section text education_headers
  if education_section.isEmpty then []
  else education_from_section education_section

/-- The alias list of `_extract_work_experience`. -/
def experience_headers : List Str :=
  (["EXPERIENCE", "Experience", "WORK EXPERIENCE", "EMPLOYMENT"]).map String.data

/-- The `WorkExperience` built from one marker line, via the company and
position regexes; `group(1).strip()` when the search succeeds, the
`"Unknown ..."` default otherwise. -/
def experience_of_line (line : Str) : WorkExperience :=
  let company :=
    match re_search company_pats line with
    | some r => pyStrip (r.2.getD [])
    | none => ("Unknown Company").data
  let position :=
    match re_search position_pats line with
    | some r => pyStrip (r.2.getD [])
    | none => ("Unknown Position").data
  { company := company, position := position }

/-- The line loop of `_extract_work_experience`: blank lines skipped, a
month-marker line appends the in-progress record and starts a new one,
other lines ignored, final record flushed. -/
def experience_loop : List Str → Option WorkExperience → List WorkExperience
  | [], cur =>
    (match cur with
     | some e => [e]
     | none => [])
  | line :: rest, cur =>
    if (pyStrip line).isEmpty then experience_loop rest cur
    else if (re_search month_pats line).isSome then
      match cur with
      | some e => e :: experience_loop rest (some (experience_of_line line))
      | none => experience_loop rest (some (experience_of_line line))
    else experience_loop rest cur

/-- The body of `_extract_work_experience` applied to a section text. -/
def experience_from_section (section_text : Str) : List WorkExperience :=
  experience_loop (split_lines section_text) none

/-- `_extract_work_experience(text)`. -/
def extract_work_experience (text : Str) : List WorkExperience :=
  let experience_section := extract_section text experience_headers
  if experience_section.isEmpty then []
  else experience_from_section experience_section

/-- The alias list of `_extract_skills`. -/
def skills_headers : List Str :=
  (["SKILLS", "Skills", "TECHNICAL SKILLS"]).map String.data

/-- The body of `_extract_skills` applied to a skills-section text:
newlines become spaces, the text is split on commas and bullets, each
token is stripped and empty tokens are dropped. -/
def skills_from_section (section_text : Str) : List Str :=
  let skills_text := section_text.map fun c => if c = '\n' then ' ' else c
  ((split_comma_bullet skills_text).map pyStrip).filter fun t => !t.isEmpty

/-- `_extract_skills(text)`. -/
def extract_skills (text : Str) : List Str :=
  let skills_section := extract_section text skills_headers
  if skills_section.isEmpty then []
  else skills_from_section skills_section

/-- The alias list of `_extract_certifications`. -/
def certification_headers : List Str :=
  (["CERTIFICATIONS", "Certifications", "CERTIFICATES"]).map String.data

/-- The body of `_extract_certifications`: each non-blank line, stripped. -/
def certifications_from_section (section_text : Str) : List Str :=
  ((split_lines section_text).map pyStrip).filter fun t => !t.isEmpty

/-- `_extract_certifications(text)`. -/
def extract_certifications (text : Str) : List Str :=
  let cert_section := extract_section text certification_headers
  if cert_section.isEmpty then []
  else certifications_from_section cert_section

/-- `_extract_personal_info(text)`: four independent regex searches over
the full text, and the name taken from the first line stripped
(`text.split('\n')` is never empty, so the `if lines` guard of the source
always takes the first branch). -/
def extract_personal_info (text : Str) : PersonalInfo :=
  let email := re_search email_pats text
  let phone := re_search phone_pats text
  let github := re_search github_pats text
  let linkedin := re_search linkedin_pats text
  let lines := split_lines text
  let name :=
    match lines with
    | [] => none
    | l :: _ => some (pyStrip l)
  { name := name,
    email := email.map fun r => r.1,
    phone := phone.map fun r => r.1,
    github := github.bind fun r => r.2,
    linkedin := linkedin.bind fun r => r.2 }

/-!
## `ResumeParser.parse`

The two decoders (`PyPDF2`, `python-docx`) are external libraries; their
outputs are the parameters `pdf_text` and `docx_text`, so `parse` is the
extension dispatch plus extraction and assembly of the source.
-/

/-- `uploaded_file.name.split('.')[-1].lower()`. -/
def file_extension (file_name : Str) : Str :=
  py_lower ((split_on_char '.' file_name).getLastD [])

/-- The message of the `ValueError` raised on an unsupported extension. -/
def unsupported_format_msg : Str :=
  ("Unsupported file format. Please upload a PDF or DOCX file.").data

/-- `ResumeParser.parse(uploaded_file)`: dispatch on the lowercased
extension, then extract every component from the chosen raw text and
assemble the `ResumeData`; an unsupported extension raises (models the
`ValueError`) and produces no record. -/
def parse (file_name pdf_text docx_text : Str) : Except Str ResumeData :=
  let ext := file_extension file_name
  let raw : Except Str Str :=
    if ext = ("pdf").data then Except.ok pdf_text
    else if ext = ("docx").data || ext = ("doc").data then Except.ok docx_text
    else Except.error unsupported_format_msg
  raw.map fun raw_text =>
    { personal_info := extract_personal_info raw_text,
      education := extract_education raw_text,
      work_experience := extract_work_experience raw_text,
      skills := extract_skills raw_text,
      certifications := extract_certifications raw_text,
      raw_text := raw_text }

/-!
## `langflow_chain.py`
-/

/-- A JSON value, the shape handled by `analyze_resume` and
`_create_mock_response`. -/
inductive JVal where
  | str (s : String)
  | num (n : Int)
  | arr (xs : List JVal)
  | obj (fields : List (String × JVal))

/-- `LangflowChain._create_mock_response()`. -/
def create_mock_response : JVal :=
  JVal.obj
    [("job_matches", JVal.arr
        [JVal.obj
           [("title", JVal.str "Data Scientist"),
            ("match_score", JVal.num 85),
            ("key_matching_skills", JVal.arr
               [JVal.str "Python", JVal.str "Data Analysis",
                JVal.str "Machine Learning"]),
            ("description", JVal.str
               "Your strong analytical skills and programming experience make you well-suited for this role.")],
         JVal.obj
           [("title", JVal.str "Software Engineer"),
            ("match_score", JVal.num 80),
            ("key_matching_skills", JVal.arr
               [JVal.str "Python", JVal.str "JavaScript", JVal.str "Git"]),
            ("description", JVal.str
               "Your technical skills and project experience align well with software engineering positions.")]]),
     ("skill_gaps", JVal.arr
        [JVal.obj
           [("skill", JVal.str "Cloud Computing (AWS/Azure)"),
            ("importance", JVal.str "High"),
            ("acquisition_recommendation", JVal.str
               "AWS Certified Solutions Architect or Azure Fundamentals certification")],
         JVal.obj
           [("skill", JVal.str "SQL and Database Management"),
            ("importance", JVal.str "Medium"),
            ("acquisition_recommendation", JVal.str
               "Take an online course on SQL and database design")]]),
     ("improvement_tips", JVal.arr
        [JVal.str "Quantify your achievements with specific metrics and results",
         JVal.str "Add a professional summary section highlighting your key strengths",
         JVal.str "Reorganize your skills section to prioritize the most relevant skills for your target roles"])]

/-- `LangflowChain.analyze_resume`, response handling: the chain
invocation is external (`invoke_result` is its outcome: an exception, or
the optional `"text"` entry of the result dict), and `parse_json` is the
external `json.loads` returning `none` on a `JSONDecodeError`.  A chain
exception is caught and yields the mock response; otherwise
`result.get("text", "{}")` is parsed, a parse failure yielding the mock
response.  The function is total: no input raises. -/
def analyze_resume (parse_json : String → Option JVal)
    (invoke_result : Except String (Option String)) : JVal :=
  match invoke_result with
  | Except.error _ => create_mock_response
  | Except.ok text_field =>
    let response_text := Option.getD text_field ("\x7b\x7d")
    match parse_json response_text with
    | some v => v
    | none => create_mock_response

/-!
## `LangflowChain._format_resume_data`

`resume_data` is the pydantic `ResumeData`, so `resume_data.dict()` holds
every field; nested models become dicts, so the `isinstance(..., dict)`
branches of the source are the ones taken.
-/

/-- Python `str.title()` (ASCII): the first letter of every run of letters
is uppercased, the rest lowercased. -/
def py_title_go : Bool → Str → Str
  | _, [] => []
  | prevCased, c :: rest =>
    (if c.isAlpha then (if prevCased then c.toLower else c.toUpper) else c) ::
      py_title_go c.isAlpha rest

/-- Python `str.title()` at the start of the string. -/
def py_title (s : Str) : Str := py_title_go false s

/-- `personal_info.items()`: the PersonalInfo fields in declaration
order, as key/value pairs of the pydantic dict. -/
def personal_info_items (p : PersonalInfo) : List (Str × Option Str) :=
  [(("name").data, p.name), (("email").data, p.email),
   (("phone").data, p.phone), (("location").data, p.location),
   (("github").data, p.github), (("linkedin").data, p.linkedin),
   (("portfolio").data, p.portfolio)]

/-- One personal-info line: skipped when the value is `None` or empty
(Python `if value:`), otherwise
`f"- {key.replace('_', ' ').title()}: {value}\n"`. -/
def personal_info_line (kv : Str × Option Str) : Str :=
  match kv.2 with
  | none => []
  | some v =>
    if v.isEmpty then []
    else
      ("- ").data ++ py_title (kv.1.map fun c => if c = '_' then ' ' else c) ++
        (": ").data ++ v ++ ['\n']

/-- `f"- {degree} at {inst}\n"`. -/
def education_line (e : Education) : Str :=
  ("- ").data ++ e.degree ++ (" at ").data ++ e.institution ++ ['\n']

/-- `f"- {position} at {company}\n"`. -/
def experience_line (e : WorkExperience) : Str :=
  ("- ").data ++ e.position ++ (" at ").data ++ e.company ++ ['\n']

/-- `f"- {skill}\n"` (also the certification line). -/
def item_line (s : Str) : Str := ("- ").data ++ s ++ ['\n']

/-- The lines a category loop appends, in order. -/
def lines_of {α : Type} (f : α → Str) (l : List α) : Str :=
  l.foldr (fun x acc => f x ++ acc) []

/-- `LangflowChain._format_resume_data(resume_data)`: the five labeled
categories in fixed order, each followed by its item lines. -/
def format_resume_data (r : ResumeData) : Str :=
  ("Personal Information:\n").data ++
    lines_of personal_info_line (personal_info_items r.personal_info) ++
  ("\nEducation:\n").data ++ lines_of education_line r.education ++
  ("\nWork Experience:\n").data ++ lines_of experience_line r.work_experience ++
  ("\nSkills:\n").data ++ lines_of item_line r.skills ++
  ("\nCertifications:\n").data ++ lines_of item_line r.certifications

/-!
## Spec-side definitions

These two definitions follow the words of the specification (not the
source); they exist to be compared with the source-derived functions.
-/

/-- Modelled from the spec, for comparison: the first non-blank line of a
text, which C2 claims becomes `PersonalInfo.name` (after stripping). -/
def spec_first_nonblank_line (text : Str) : Option Str :=
  ((split_lines text).filter fun l => !(pyStrip l).isEmpty).head?

/-- A block of rendered entries: each entry on its own line prefixed with
`"- "` (the rendering C9 requires of every category's items). -/
def dash_block (b : Str) : Prop :=
  ∃ entries : List Str, b = lines_of item_line entries

/-!
## Lemmas
-/

/-- Python `split` never yields an empty list of chunks. -/
theorem split_on_char_ne_nil (sep : Char) (s : Str) :
    split_on_char sep s ≠ [] := by
  cases s with
  | nil => simp [split_on_char]
  | cons c rest =>
    simp only [split_on_char]
    by_cases h : c = sep
    · simp [h]
    · simp only [if_neg h]
      cases split_on_char sep rest <;> simp

/-- Splitting a string without the separator yields the whole string. -/
theorem split_on_char_of_not_mem (sep : Char) (s : Str) (h : sep ∉ s) :
    split_on_char sep s = [s] := by
  induction s with
  | nil => simp [split_on_char]
  | cons c rest ih =>
    simp only [split_on_char]
    have hc : ¬ c = sep := fun hcs => h (hcs ▸ List.mem_cons_self c rest)
    rw [if_neg hc, ih (fun hm => h (List.mem_cons_of_mem c hm))]

/-- Splitting at a separator occurrence: the head chunk splits off. -/
theorem split_on_char_sep_cons (sep : Char) (y : Str) :
    split_on_char sep (sep :: y) = [] :: split_on_char sep y := by
  simp [split_on_char]

/-- Splitting after a non-separator character extends the head chunk. -/
theorem split_on_char_other_cons (sep c : Char) (y : Str) (h : ¬ c = sep) :
    split_on_char sep (c :: y) =
      match split_on_char sep y with
      | [] => [[c]]
      | l :: ls => (c :: l) :: ls := by
  simp [split_on_char, h]

/-- A string containing the separator splits into at least two chunks. -/
theorem split_on_char_length_ge_two (sep : Char) (x y : Str) :
    2 ≤ (split_on_char sep (x ++ sep :: y)).length := by
  induction x with
  | nil =>
    rw [List.nil_append, split_on_char_sep_cons]
    have h1 : 0 < (split_on_char sep y).length :=
      List.length_pos.mpr (split_on_char_ne_nil sep y)
    simp only [List.length_cons]
    omega
  | cons c x' ih =>
    rw [List.cons_append]
    by_cases h : c = sep
    · subst h
      rw [split_on_char_sep_cons]
      have h1 : 0 < (split_on_char c (x' ++ c :: y)).length :=
        List.length_pos.mpr (split_on_char_ne_nil c _)
      simp only [List.length_cons]
      omega
    · rw [split_on_char_other_cons sep c _ h]
      cases hr : split_on_char sep (x' ++ sep :: y) with
      | nil => exact absurd hr (split_on_char_ne_nil _ _)
      | cons l ls =>
        rw [hr] at ih
        simp only [List.length_cons] at ih ⊢
        omega

/-- The last chunk of a split at the last separator occurrence. -/
theorem split_on_char_getLastD_append (sep : Char) (s t : Str) :
    (split_on_char sep (s ++ sep :: t)).getLastD [] =
      (split_on_char sep t).getLastD [] := by
  induction s with
  | nil =>
    rw [List.nil_append, split_on_char_sep_cons, List.getLastD_cons]
  | cons c s' ih =>
    rw [List.cons_append]
    by_cases h : c = sep
    · subst h
      rw [split_on_char_sep_cons, List.getLastD_cons]
      exact ih
    · rw [split_on_char_other_cons sep c _ h]
      cases hr : split_on_char sep (s' ++ sep :: t) with
      | nil => exact absurd hr (split_on_char_ne_nil _ _)
      | cons l ls =>
        have h2 := split_on_char_length_ge_two sep s' t
        rw [hr] at h2 ih
        cases ls with
        | nil => simp at h2
        | cons e es =>
          simp only [List.getLastD_cons] at ih ⊢
          exact ih

/-- Dropping leading whitespace twice is dropping it once. -/
theorem strip_left_idem (s : Str) : strip_left (strip_left s) = strip_left s := by
  induction s with
  | nil => rfl
  | cons c rest ih =>
    by_cases h : isPySpace c
    · simp [strip_left, List.dropWhile, h] at ih ⊢
      exact ih
    · simp [strip_left, List.dropWhile, h]

/-- Unfolding `strip_right` on a cons cell. -/
theorem strip_right_cons (c : Char) (rest : Str) :
    strip_right (c :: rest) =
      match strip_right rest with
      | [] => if isPySpace c then [] else [c]
      | d :: ds => c :: d :: ds := rfl

/-- Unfolding `strip_left` on a cons cell. -/
theorem strip_left_cons (c : Char) (rest : Str) :
    strip_left (c :: rest) = if isPySpace c then strip_left rest else c :: rest := by
  simp [strip_left, List.dropWhile_cons]

/-- Dropping trailing whitespace twice is dropping it once. -/
theorem strip_right_idem (s : Str) :
    strip_right (strip_right s) = strip_right s := by
  induction s with
  | nil => rfl
  | cons c rest ih =>
    cases hr : strip_right rest with
    | nil =>
      by_cases h : isPySpace c
      · simp [strip_right_cons, hr, h, strip_right]
      · simp [strip_right_cons, hr, h, strip_right]
    | cons d ds =>
      rw [hr] at ih
      have h1 : strip_right (c :: rest) = c :: d :: ds := by
        rw [strip_right_cons, hr]
      rw [h1, strip_right_cons, ih]

/-- The two strips commute. -/
theorem strip_left_right_comm (s : Str) :
    strip_right (strip_left s) = strip_left (strip_right s) := by
  induction s with
  | nil => rfl
  | cons c rest ih =>
    by_cases h : isPySpace c
    · rw [strip_left_cons, if_pos h, ih]
      cases hr : strip_right rest with
      | nil =>
        have h2 : strip_right (c :: rest) = [] := by
          rw [strip_right_cons, hr, if_pos h]
        rw [h2]
      | cons d ds =>
        have h2 : strip_right (c :: rest) = c :: d :: ds := by
          rw [strip_right_cons, hr]
        have h4 : strip_left (c :: d :: ds) = strip_left (d :: ds) := by
          rw [strip_left_cons, if_pos h]
        rw [h2, h4]
    · rw [strip_left_cons, if_neg h]
      cases hr : strip_right rest with
      | nil =>
        have h2 : strip_right (c :: rest) = [c] := by
          rw [strip_right_cons, hr, if_neg h]
        have h3 : strip_left [c] = [c] := by rw [strip_left_cons, if_neg h]
        rw [h2, h3]
      | cons d ds =>
        have h2 : strip_right (c :: rest) = c :: d :: ds := by
          rw [strip_right_cons, hr]
        have h4 : strip_left (c :: d :: ds) = c :: d :: ds := by
          rw [strip_left_cons, if_neg h]
        rw [h2, h4]

/-- Python `strip` is idempotent. -/
theorem pyStrip_idem (s : Str) : pyStrip (pyStrip s) = pyStrip s := by
  unfold pyStrip
  rw [strip_left_right_comm, strip_right_idem, strip_left_idem]

/-- A string whose right strip is empty is all whitespace. -/
theorem all_ws_of_strip_right_nil (s : Str) (h : strip_right s = []) :
    s.all isPySpace = true := by
  induction s with
  | nil => rfl
  | cons c rest ih =>
    rw [strip_right_cons] at h
    cases hr : strip_right rest with
    | nil =>
      rw [hr] at h
      by_cases hc : isPySpace c
      · simp [List.all_cons, hc, ih hr]
      · rw [if_neg hc] at h
        exact absurd h (by simp)
    | cons d ds =>
      rw [hr] at h
      exact absurd h (by simp)

/-- A string whose left strip is all whitespace is all whitespace. -/
theorem all_ws_of_strip_left_all (s : Str) (h : (strip_left s).all isPySpace = true) :
    s.all isPySpace = true := by
  induction s with
  | nil => rfl
  | cons c rest ih =>
    rw [strip_left_cons] at h
    by_cases hc : isPySpace c
    · rw [if_pos hc] at h
      simp [List.all_cons, hc, ih h]
    · rw [if_neg hc] at h
      exact h

/-- A string whose right strip is all whitespace is all whitespace. -/
theorem all_ws_of_strip_right_all (s : Str)
    (h : (strip_right s).all isPySpace = true) : s.all isPySpace = true := by
  induction s with
  | nil => rfl
  | cons c rest ih =>
    rw [strip_right_cons] at h
    cases hr : strip_right rest with
    | nil =>
      have hrest : rest.all isPySpace = true := all_ws_of_strip_right_nil rest hr
      rw [hr] at h
      by_cases hc : isPySpace c
      · simp [List.all_cons, hc, hrest]
      · rw [if_neg hc] at h
        simp [List.all_cons] at h
        exact absurd h hc
    | cons d ds =>
      rw [hr] at h
      simp only [List.all_cons, Bool.and_eq_true] at h
      have : (strip_right rest).all isPySpace = true := by
        rw [hr]
        simp [List.all_cons, h.1, h.2]
      simp [List.all_cons, h.1, ih this]

/-- A string that strips to nothing is all whitespace. -/
theorem all_ws_of_pyStrip_nil (s : Str) (h : pyStrip s = []) :
    s.all isPySpace = true := by
  unfold pyStrip at h
  have h1 : (strip_right s).all isPySpace = true := by
    apply all_ws_of_strip_left_all
    rw [h]
    rfl
  exact all_ws_of_strip_right_all s h1

/-- A substring whose first character is not whitespace does not occur in
an all-whitespace string. -/
theorem has_sub_false_of_all_ws (k l : Str) (c : Char) (hk : k = c :: k.tail)
    (hc : isPySpace c = false) (hl : l.all isPySpace = true) :
    has_sub k l = false := by
  induction l with
  | nil =>
    rw [hk]
    simp [has_sub, List.isEmpty]
  | cons a rest ih =>
    simp only [List.all_cons, Bool.and_eq_true] at hl
    simp only [has_sub, Bool.or_eq_false_iff]
    refine ⟨?_, ih hl.2⟩
    rw [hk]
    simp only [List.isPrefixOf]
    simp only [Bool.and_eq_false_iff]
    left
    have hne : ¬ c = a := by
      intro hca
      rw [hca] at hc
      rw [hl.1] at hc
      exact absurd hc (by simp)
    simp [hne]

/-- A blank line (one that strips to nothing) contains no degree keyword. -/
theorem line_has_degree_of_blank (line : Str) (h : pyStrip line = []) :
    line_has_degree line = false := by
  have hws := all_ws_of_pyStrip_nil line h
  have key : ∀ k : Str, ∀ c : Char, k = c :: k.tail → isPySpace c = false →
      has_sub k line = false :=
    fun k c hk hc => has_sub_false_of_all_ws k line c hk hc hws
  simp only [line_has_degree, degree_keywords, List.any_eq_false, List.mem_map]
  rintro k ⟨w, hw, rfl⟩
  fin_cases hw <;> rw [Bool.not_eq_true] <;> exact key _ _ rfl (by decide)

/-- Flushing: a pending education record is emitted first, whatever the
remaining lines contribute. -/
theorem education_loop_flush (lines : List Str) (e : Education) :
    education_loop lines (some e) = e :: education_loop lines none := by
  induction lines with
  | nil => rfl
  | cons line rest ih =>
    by_cases hb : (pyStrip line).isEmpty = true
    · simp [education_loop, hb, ih]
    · by_cases hk : line_has_degree line = true
      · simp [education_loop, hb, hk]
      · simp [education_loop, hb, hk, ih]

/-- The education loop is the map of the record builder over the keyword
lines, in order. -/
theorem education_loop_none (lines : List Str) :
    education_loop lines none =
      (lines.filter line_has_degree).map education_of_line := by
  induction lines with
  | nil => rfl
  | cons line rest ih =>
    by_cases hb : (pyStrip line).isEmpty = true
    · have hnil : pyStrip line = [] := by
        cases h : pyStrip line with
        | nil => rfl
        | cons a b => rw [h] at hb; exact absurd hb (by simp [List.isEmpty])
      have hk : line_has_degree line = false := line_has_degree_of_blank line hnil
      simp [education_loop, hb, List.filter_cons, hk, ih]
    · by_cases hk : line_has_degree line = true
      · rw [show education_loop (line :: rest) none =
              education_loop rest (some (education_of_line line)) from by
            simp [education_loop, hb, hk]]
        rw [education_loop_flush, ih, List.filter_cons, if_pos hk, List.map_cons]
      · simp [education_loop, hb, hk, List.filter_cons, ih]

/-- Unfolding `lines_of` on a cons cell. -/
theorem lines_of_cons {a : Type} (f : a -> Str) (x : a) (xs : List a) :
    lines_of f (x :: xs) = f x ++ lines_of f xs := rfl

/-- A fold of line renderings, each empty or a dash line, is a dash block. -/
theorem dash_block_lines_of {a : Type} (f : a -> Str) (l : List a)
    (hf : ∀ x : a, f x = [] ∨ ∃ e : Str, f x = item_line e) :
    dash_block (lines_of f l) := by
  induction l with
  | nil => exact Exists.intro [] rfl
  | cons x xs ih =>
    obtain ⟨entries, he⟩ := ih
    rcases hf x with h0 | ⟨e, he2⟩
    · exact ⟨entries, by rw [lines_of_cons, h0, he, List.nil_append]⟩
    · exact ⟨e :: entries, by rw [lines_of_cons, he2, he, lines_of_cons]⟩

/-- Every personal-info rendering is empty or a dash line. -/
theorem personal_info_line_shape (kv : Str × Option Str) :
    personal_info_line kv = [] ∨
      ∃ e : Str, personal_info_line kv = item_line e := by
  obtain ⟨k, v⟩ := kv
  cases v with
  | none => exact Or.inl rfl
  | some w =>
    by_cases hw : w.isEmpty = true
    · exact Or.inl (by simp [personal_info_line, hw])
    · refine Or.inr ⟨py_title (k.map fun c => if c = '_' then ' ' else c) ++
        (": ").data ++ w, ?_⟩
      simp [personal_info_line, hw, item_line]


/-- A word-boundary token consumes nothing: a non-empty match through it
is a non-empty match of the remaining tokens. -/
theorem matchToks_wb_ne_nil (ts : List Tok) (pr : Option Char) (s : Str)
    (h : matchToks (Tok.wb :: ts) pr s ≠ []) : matchToks ts pr s ≠ [] := by
  simp only [matchToks] at h
  split at h
  · exact h
  · simp at h

/-- A single-character token matches only when the head satisfies it. -/
theorem matchToks_one_head (q : Char → Bool) (ts : List Tok) (pr : Option Char)
    (c : Char) (rest : Str)
    (h : matchToks (Tok.one q :: ts) pr (c :: rest) ≠ []) : q c = true := by
  simp only [matchToks] at h
  by_cases hq : q c = true
  · exact hq
  · simp [hq] at h

/-- Every month name is non-empty and starts with a letter. -/
theorem month_names_head_alpha :
    ∀ m ∈ month_names, m ≠ [] ∧ (m.headD ' ').isAlpha = true := by decide

/-- A month-marker pattern matches a string only if it contains a letter. -/
theorem month_match_any_alpha (pr : Option Char) (s : Str)
    (pat : List Tok) (hp : pat ∈ month_pats)
    (h : matchToks pat pr s ≠ []) : s.any Char.isAlpha = true := by
  rw [month_pats, List.mem_map] at hp
  obtain ⟨m, hm, rfl⟩ := hp
  obtain ⟨hne, hal⟩ := month_names_head_alpha m hm
  cases m with
  | nil => exact absurd rfl hne
  | cons m0 m1 =>
    simp only [lit_toks, List.map_cons, List.cons_append] at h
    have h2 := matchToks_wb_ne_nil _ _ _ h
    cases s with
    | nil => simp [matchToks] at h2
    | cons c rest =>
      have h3 := matchToks_one_head _ _ _ _ _ h2
      simp only [decide_eq_true_eq] at h3
      subst h3
      simp only [List.headD_cons] at hal
      simp [List.any_cons, hal]

/-- A position where the search reports a pattern has a matching pattern. -/
theorem tryPats_some_matches (pats : List (List Tok)) (pr : Option Char)
    (s : Str) (r : Str × Option Str) (h : tryPats pats pr s = some r) :
    ∃ p ∈ pats, matchToks p pr s ≠ [] := by
  induction pats with
  | nil => simp [tryPats] at h
  | cons p ps ih =>
    cases hm : matchToks p pr s with
    | nil =>
      simp only [tryPats, hm] at h
      obtain ⟨q, hq, hne⟩ := ih h
      exact ⟨q, List.mem_cons_of_mem _ hq, hne⟩
    | cons st sts => exact ⟨p, List.mem_cons_self _ _, by rw [hm]; simp⟩

/-- A successful month-marker search implies the line contains a letter. -/
theorem month_search_any_alpha (pr : Option Char) (s : Str)
    (h : (searchFrom month_pats pr s).isSome = true) :
    s.any Char.isAlpha = true := by
  induction s generalizing pr with
  | nil =>
    cases ht : tryPats month_pats pr [] with
    | some r =>
      obtain ⟨p, hp, hne⟩ := tryPats_some_matches _ _ _ _ ht
      have := month_match_any_alpha pr [] p hp hne
      simp at this
    | none =>
      rw [searchFrom] at h
      rw [ht] at h
      simp at h
  | cons c rest ih =>
    cases ht : tryPats month_pats pr (c :: rest) with
    | some r =>
      obtain ⟨p, hp, hne⟩ := tryPats_some_matches _ _ _ _ ht
      exact month_match_any_alpha pr (c :: rest) p hp hne
    | none =>
      rw [searchFrom, ht] at h
      simp only [] at h
      have h2 := ih (some c) h
      simp [List.any_cons, h2]

/-- A capture-group-only pattern is found wherever some character of the
class occurs. -/
theorem grp1_searchFrom_of_any (p : Char → Bool) (pr : Option Char) (s : Str)
    (h : s.any p = true) :
    (searchFrom [[Tok.grp1 p]] pr s).isSome = true := by
  induction s generalizing pr with
  | nil => simp at h
  | cons c rest ih =>
    by_cases hc : p c = true
    · have hrun : (c :: rest).takeWhile p = c :: rest.takeWhile p := by
        simp [List.takeWhile_cons, hc]
      have hkmem : ((c :: rest).takeWhile p).length ∈
          countdown (((c :: rest).takeWhile p).length) 1 := by
        unfold countdown
        rw [List.mem_reverse, List.mem_range'_1]
        rw [hrun]
        simp only [List.length_cons]
        omega
      have hne : matchToks [Tok.grp1 p] pr (c :: rest) ≠ [] := by
        simp only [matchToks]
        rw [Ne, List.flatMap_eq_nil_iff]
        intro hall
        have h9 := hall _ hkmem
        simp [matchToks] at h9
      cases ht : tryPats [[Tok.grp1 p]] pr (c :: rest) with
      | some r => simp only [searchFrom, ht]; rfl
      | none =>
        exfalso
        cases hm : matchToks [Tok.grp1 p] pr (c :: rest) with
        | nil => exact hne hm
        | cons a b =>
          simp only [tryPats, hm] at ht
          exact Option.noConfusion ht
    · have hm : matchToks [Tok.grp1 p] pr (c :: rest) = [] := by
        simp [matchToks, List.takeWhile_cons, hc, countdown]
      have ht : tryPats [[Tok.grp1 p]] pr (c :: rest) = none := by
        simp [tryPats, hm]
      have h2 : rest.any p = true := by
        rw [List.any_cons, Bool.or_eq_true] at h
        rcases h with h | h
        · exact absurd h hc
        · exact h
      simp only [searchFrom, ht]
      exact ih (some c) h2


/-- A line satisfying `no_nl` does not contain the newline character. -/
theorem not_mem_of_no_nl (x : Str) (h : no_nl x = true) : '\n' ∉ x := by
  rw [no_nl, List.all_eq_true] at h
  intro hm
  have h2 := h _ hm
  simp at h2

/-- Splitting at the first separator occurrence after a clean chunk. -/
theorem split_on_char_append (sep : Char) (x z : Str) (h : sep ∉ x) :
    split_on_char sep (x ++ sep :: z) = x :: split_on_char sep z := by
  induction x with
  | nil => rw [List.nil_append, split_on_char_sep_cons]
  | cons c x1 ih =>
    have hc : ¬ c = sep := fun he => h (he ▸ List.mem_cons_self c x1)
    rw [List.cons_append, split_on_char_other_cons sep c _ hc,
      ih (fun hm => h (List.mem_cons_of_mem c hm))]

/-- Splitting the newline join of newline-free lines recovers the lines. -/
theorem split_lines_nl_join (L : List Str) (hne : L ≠ [])
    (h : ∀ l ∈ L, no_nl l = true) : split_lines (nl_join L) = L := by
  induction L with
  | nil => exact absurd rfl hne
  | cons x xs ih =>
    cases xs with
    | nil =>
      exact split_on_char_of_not_mem _ _
        (not_mem_of_no_nl x (h x (List.mem_cons_self _ _)))
    | cons y ys =>
      have hx := not_mem_of_no_nl x (h x (List.mem_cons_self _ _))
      have step : split_lines (nl_join (x :: y :: ys)) =
          x :: split_lines (nl_join (y :: ys)) := by
        show split_on_char '\n' (x ++ '\n' :: nl_join (y :: ys)) =
          x :: split_on_char '\n' (nl_join (y :: ys))
        exact split_on_char_append _ _ _ hx
      rw [step, ih (by simp) (fun l hl => h l (List.mem_cons_of_mem _ hl))]

/-- A header line switches the scan into the section and is skipped. -/
theorem section_loop_cons_enter (headers : List Str) (line : Str)
    (rest : List Str) (inSec : Bool)
    (h : line_has_header headers line = true) :
    section_loop headers (line :: rest) inSec =
      section_loop headers rest true := by
  simp [section_loop, h]

/-- Outside the section a non-header line is skipped. -/
theorem section_loop_cons_out (headers : List Str) (line : Str)
    (rest : List Str) (h : line_has_header headers line = false) :
    section_loop headers (line :: rest) false =
      section_loop headers rest false := by
  simp [section_loop, h]

/-- Inside the section the scan stops just BEFORE a line whose successor
is a non-blank all-uppercase line: the current line is dropped too. -/
theorem section_loop_cons_stop (headers : List Str) (line next : Str)
    (rest2 : List Str) (h1 : line_has_header headers line = false)
    (h2 : upper_boundary next = true) :
    section_loop headers (line :: next :: rest2) true = [] := by
  simp [section_loop, h1, h2]

/-- Inside the section a line whose successor is not an uppercase
boundary is accumulated. -/
theorem section_loop_cons_take (headers : List Str) (line next : Str)
    (rest2 : List Str) (h1 : line_has_header headers line = false)
    (h2 : upper_boundary next = false) :
    section_loop headers (line :: next :: rest2) true =
      line ++ '\n' :: section_loop headers (next :: rest2) true := by
  simp [section_loop, h1, h2]

/-- Skipping a header-free prefix while outside the section. -/
theorem section_loop_skip (headers pres l : List Str)
    (h : ∀ p ∈ pres, line_has_header headers p = false) :
    section_loop headers (pres ++ l) false = section_loop headers l false := by
  induction pres with
  | nil => rfl
  | cons p ps ih =>
    rw [List.cons_append,
      section_loop_cons_out headers p _ (h p (List.mem_cons_self _ _))]
    exact ih (fun q hq => h q (List.mem_cons_of_mem _ hq))

/-- The in-section scan over header-free, boundary-free body lines
followed by an uppercase heading accumulates all body lines EXCEPT the
last one (dropped with the heading), each with a trailing newline. -/
theorem section_loop_body (headers : List Str) (bs : List Str) (U : Str)
    (more : List Str) (hbs : bs ≠ [])
    (hb : ∀ b ∈ bs, line_has_header headers b = false ∧
      upper_boundary b = false)
    (hU : upper_boundary U = true) :
    section_loop headers (bs ++ U :: more) true =
      (bs.dropLast).foldr (fun l a => l ++ '\n' :: a) [] := by
  induction bs with
  | nil => exact absurd rfl hbs
  | cons b bs1 ih =>
    obtain ⟨hbh, _⟩ := hb b (List.mem_cons_self _ _)
    cases bs1 with
    | nil =>
      rw [List.cons_append, List.nil_append,
        section_loop_cons_stop headers b U more hbh hU]
      rfl
    | cons b2 bs2 =>
      obtain ⟨_, hb2u⟩ := hb b2 (List.mem_cons_of_mem _ (List.mem_cons_self _ _))
      have ihr := ih (by simp) (fun x hx => hb x (List.mem_cons_of_mem _ hx))
      rw [List.cons_append] at ihr
      rw [List.cons_append, List.cons_append]
      rw [section_loop_cons_take headers b b2 _ hbh hb2u]
      rw [ihr]
      rfl

/-- Appending a trailing whitespace character does not change the strip. -/
theorem strip_right_append_ws (y : Str) (c : Char) (hc : isPySpace c = true) :
    strip_right (y ++ [c]) = strip_right y := by
  induction y with
  | nil => simp [strip_right, hc]
  | cons a y1 ih =>
    rw [List.cons_append, strip_right_cons, ih, strip_right_cons]

/-- A trailing newline disappears under Python strip. -/
theorem pyStrip_append_nl (y : Str) : pyStrip (y ++ ['\n']) = pyStrip y := by
  unfold pyStrip
  rw [strip_right_append_ws y '\n' (by decide)]

/-- The newline-terminated accumulation strips to the newline join. -/
theorem pyStrip_foldr_join (xs : List Str) :
    pyStrip (xs.foldr (fun l a => l ++ '\n' :: a) []) =
      pyStrip (nl_join xs) := by
  cases xs with
  | nil => rfl
  | cons x xs1 =>
    have key : ∀ ys : List Str, ∀ y : Str,
        (y :: ys).foldr (fun l a => l ++ '\n' :: a) [] =
          nl_join (y :: ys) ++ ['\n'] := by
      intro ys
      induction ys with
      | nil =>
        intro y
        show y ++ '\n' :: [] = y ++ ['\n']
        rfl
      | cons z zs ih =>
        intro y
        show y ++ '\n' :: (z :: zs).foldr (fun l a => l ++ '\n' :: a) [] =
          (y ++ '\n' :: nl_join (z :: zs)) ++ ['\n']
        rw [ih z, List.append_assoc]
        rfl
    rw [key xs1 x, pyStrip_append_nl]


/-!
## Claims
-/

/-- C2, counterexample: for the non-empty text consisting of a blank first
line and then the line containing the name, the extracted name is the
stripped FIRST line (the empty string), not the first non-blank line, so
the claim fails on this input. -/
theorem C2_counterexample :
    (extract_personal_info (("\nJane Doe").data)).name = some [] ∧
    (spec_first_nonblank_line (("\nJane Doe").data)).map pyStrip =
      some (("Jane Doe").data) ∧
    some ([] : Str) ≠ some (("Jane Doe").data) := by
  refine ⟨?_, by decide, by decide⟩
  decide

/-- C2, amended: the name field always equals the FIRST line of the text,
stripped of surrounding whitespace (never absent, never an error); when
the first line is non-blank this coincides with the first non-blank line
of the text, which is the case the claim describes. -/
theorem C2_name_is_first_line (t : Str) :
    (extract_personal_info t).name = some (pyStrip ((split_lines t).headD [])) ∧
    ((pyStrip ((split_lines t).headD [])).isEmpty = false →
      (spec_first_nonblank_line t).map pyStrip =
        some (pyStrip ((split_lines t).headD []))) := by
  obtain ⟨l, ls, hl⟩ : ∃ l ls, split_lines t = l :: ls := by
    cases h : split_lines t with
    | nil => exact absurd h (split_on_char_ne_nil _ _)
    | cons a b => exact ⟨a, b, rfl⟩
  constructor
  · simp [extract_personal_info, hl]
  · intro h
    rw [hl] at h
    simp only [List.headD_cons] at h
    have hkeep : (!(pyStrip l).isEmpty) = true := by
      rw [h]
      rfl
    simp [spec_first_nonblank_line, hl, List.filter_cons, hkeep]

/-- C2, witness for the amended theorem at a concrete input. -/
theorem C2_name_witness :
    (pyStrip ((split_lines (("Jane Doe\nmore").data)).headD [])).isEmpty = false ∧
    (extract_personal_info (("Jane Doe\nmore").data)).name =
      some (pyStrip ((split_lines (("Jane Doe\nmore").data)).headD [])) ∧
    (spec_first_nonblank_line (("Jane Doe\nmore").data)).map pyStrip =
      some (pyStrip ((split_lines (("Jane Doe\nmore").data)).headD [])) :=
  ⟨by decide, (C2_name_is_first_line _).1, (C2_name_is_first_line _).2 (by decide)⟩

/-- C3: parse raises the unsupported-format error exactly when the
lowercased suffix after the last dot is none of pdf, docx, doc; a file
named resume.xlsx raises it; and for a name with a dot the inspected
extension is indeed the suffix after the last dot, lowercased. -/
theorem C3_extension_dispatch :
    (∀ n p d : Str,
        file_extension n ≠ ("pdf").data → file_extension n ≠ ("docx").data →
        file_extension n ≠ ("doc").data →
        parse n p d = Except.error unsupported_format_msg) ∧
    (∀ n p d : Str,
        (file_extension n = ("pdf").data ∨ file_extension n = ("docx").data ∨
          file_extension n = ("doc").data) →
        (parse n p d).isOk = true) ∧
    (∀ p d : Str,
        parse (("resume.xlsx").data) p d =
          Except.error unsupported_format_msg) ∧
    (∀ s suf : Str, '.' ∉ suf →
        file_extension (s ++ '.' :: suf) = py_lower suf) := by
  refine ⟨?_, ?_, ?_, ?_⟩
  · intro n p d h1 h2 h3
    simp [parse, h1, h2, h3, Except.map]
  · intro n p d h
    rcases h with h | h | h <;>
      simp [parse, h, Except.map, Except.isOk, Except.toBool]
  · intro p d
    have h1 : file_extension (("resume.xlsx").data) = ("xlsx").data := by decide
    simp [parse, h1, Except.map]
  · intro s suf hns
    unfold file_extension
    rw [split_on_char_getLastD_append, split_on_char_of_not_mem _ _ hns]
    simp [List.getLastD]

/-- C3, witness: concrete instances of the dispatch facts. -/
theorem C3_witness :
    parse (("resume.xlsx").data) (("p").data) (("d").data) =
      Except.error unsupported_format_msg ∧
    parse (("notes.txt").data) (("p").data) (("d").data) =
      Except.error unsupported_format_msg ∧
    (parse (("cv.pdf").data) (("p").data) (("d").data)).isOk = true ∧
    file_extension (("a").data ++ '.' :: ("XLSx").data) =
      py_lower (("XLSx").data) :=
  ⟨C3_extension_dispatch.2.2.1 _ _,
   C3_extension_dispatch.1 _ _ _ (by decide) (by decide) (by decide),
   C3_extension_dispatch.2.1 _ _ _ (Or.inl (by decide)),
   C3_extension_dispatch.2.2.2 _ _ (by decide)⟩

/-- C5: when the model response text fails to parse as JSON the analysis
returns the fixed mock payload, and in every case the analysis is total —
its value is either the parsed response or the mock payload, so no
exception ever reaches the caller. -/
theorem C5_json_fallback :
    (∀ (parse_json : String → Option JVal) (text_field : Option String),
        parse_json (Option.getD text_field ("\x7b\x7d")) = none →
        analyze_resume parse_json (Except.ok text_field) = create_mock_response) ∧
    (∀ (parse_json : String → Option JVal)
        (invoke_result : Except String (Option String)),
        analyze_resume parse_json invoke_result = create_mock_response ∨
        ∃ t v, invoke_result = Except.ok t ∧
          parse_json (Option.getD t ("\x7b\x7d")) = some v ∧
          analyze_resume parse_json invoke_result = v) := by
  constructor
  · intro parse_json text_field h
    simp [analyze_resume, h]
  · intro parse_json invoke_result
    cases invoke_result with
    | error e => exact Or.inl rfl
    | ok t =>
      cases h : parse_json (Option.getD t ("\x7b\x7d")) with
      | none => exact Or.inl (by simp [analyze_resume, h])
      | some v => exact Or.inr ⟨t, v, rfl, h, by simp [analyze_resume, h]⟩

/-- C5, witness: a parser that rejects everything triggers the mock
fallback at a concrete response text. -/
theorem C5_witness :
    (fun _ : String => (none : Option JVal))
        (Option.getD (some ("not json")) ("\x7b\x7d")) = none ∧
    analyze_resume (fun _ : String => (none : Option JVal))
        (Except.ok (some ("not json"))) = create_mock_response :=
  ⟨rfl, C5_json_fallback.1 _ _ rfl⟩

/-- C6: skills extraction replaces newlines with spaces, splits on commas
and bullets, strips each token and drops empty ones, preserving order and
performing no deduplication or case normalization; on the stated body it
yields exactly Python, Go, Rust. -/
theorem C6_skills_tokens :
    skills_from_section (("Python, Go, • Rust").data) =
      [("Python").data, ("Go").data, ("Rust").data] ∧
    skills_from_section (("python,\nPython,  python").data) =
      [("python").data, ("Python").data, ("python").data] ∧
    (∀ body t : Str, t ∈ skills_from_section body →
      t.isEmpty = false ∧ pyStrip t = t) := by
  refine ⟨by decide, by decide, ?_⟩
  intro body t ht
  unfold skills_from_section at ht
  rw [List.mem_filter] at ht
  obtain ⟨hmem, hne⟩ := ht
  rw [List.mem_map] at hmem
  obtain ⟨raw, _, hraw⟩ := hmem
  constructor
  · rw [Bool.not_eq_true'] at hne
    exact hne
  · rw [← hraw, pyStrip_idem]

/-- C6, witness: the general token facts at a concrete body and token. -/
theorem C6_witness :
    (("Python").data) ∈ skills_from_section (("Python, Go, • Rust").data) ∧
    (("Python").data).isEmpty = false ∧
    pyStrip (("Python").data) = ("Python").data :=
  ⟨by decide,
   (C6_skills_tokens.2.2 (("Python, Go, • Rust").data) (("Python").data)
      (by decide)).1,
   (C6_skills_tokens.2.2 (("Python, Go, • Rust").data) (("Python").data)
      (by decide)).2⟩

/-- C7, counterexample: a text that contains jane@example.com but whose
FIRST email-pattern match is an earlier email; the email field is that
first match, not jane@example.com, so the claim's universal statement
fails. -/
theorem C7_counterexample :
    has_sub (("jane@example.com").data)
        (("bob@test.com jane@example.com").data) = true ∧
    (extract_personal_info (("bob@test.com jane@example.com").data)).email =
      some (("bob@test.com").data) ∧
    some (("bob@test.com").data) ≠ some (("jane@example.com").data) := by
  refine ⟨by decide, ?_, by decide⟩
  decide

/-- C7, amended: the regex fields come from the full text via FIRST-match
search: the email field equals the full text of the first email-pattern
match and the github field equals the first github match's capture group
(without the github.com/ prefix); when a text's first email match is
jane@example.com the email field is exactly that string; absence of a
match yields an unset field, never an error. -/
theorem C7_first_match_fields :
    (∀ t m : Str, ∀ g : Option Str,
        re_search email_pats t = some (m, g) →
        (extract_personal_info t).email = some m) ∧
    (∀ t m h : Str,
        re_search github_pats t = some (m, some h) →
        (extract_personal_info t).github = some h) ∧
    (∀ t : Str, re_search email_pats t = none →
        (extract_personal_info t).email = none) ∧
    (∀ t : Str, re_search github_pats t = none →
        (extract_personal_info t).github = none) ∧
    (extract_personal_info
        (("Contact: jane@example.com via github.com/janedoe today").data)).email =
      some (("jane@example.com").data) ∧
    (extract_personal_info
        (("Contact: jane@example.com via github.com/janedoe today").data)).github =
      some (("janedoe").data) ∧
    (extract_personal_info (("no contact info").data)).email = none ∧
    (extract_personal_info (("no contact info").data)).github = none := by
  refine ⟨?_, ?_, ?_, ?_, by decide, by decide, by decide, by decide⟩
  · intro t m g h
    simp [extract_personal_info, h]
  · intro t m h hm
    simp [extract_personal_info, hm]
  · intro t h
    simp [extract_personal_info, h]
  · intro t h
    simp [extract_personal_info, h]

/-- C7, witness: the first-match projections at concrete inputs. -/
theorem C7_witness :
    re_search email_pats (("a@b.de").data) =
      some (((("a@b.de").data, none) : Str × Option Str)) ∧
    (extract_personal_info (("a@b.de").data)).email = some (("a@b.de").data) ∧
    re_search github_pats (("github.com/jd").data) =
      some (((("github.com/jd").data, some (("jd").data)) : Str × Option Str)) ∧
    (extract_personal_info (("github.com/jd").data)).github =
      some (("jd").data) :=
  ⟨by decide,
   C7_first_match_fields.1 (("a@b.de").data) (("a@b.de").data) none (by decide),
   by decide,
   C7_first_match_fields.2.1 (("github.com/jd").data) (("github.com/jd").data)
     (("jd").data) (by decide)⟩

/-- C4: for every education-section body the produced records correspond
one-to-one, in order, to the lines containing a degree keyword, each
record built from its keyword line (first comma token stripped as degree,
second as institution, else empty); non-keyword lines contribute nothing
and the final in-progress record is flushed.  Concrete instances show the
field extraction and the flush. -/
theorem C4_education_records :
    (∀ body : Str,
      education_from_section body =
        ((split_lines body).filter line_has_degree).map education_of_line) ∧
    education_from_section
        (("Bachelor of Science, MIT\nsome note\nM.S., Stanford, CA").data) =
      [{ institution := ("MIT").data, degree := ("Bachelor of Science").data },
       { institution := ("Stanford").data, degree := ("M.S.").data }] ∧
    education_from_section (("Master of Arts").data) =
      [{ institution := [], degree := ("Master of Arts").data }] := by
  refine ⟨?_, by decide, by decide⟩
  intro body
  unfold education_from_section
  exact education_loop_none (split_lines body)

/-- C8: a successful parse always yields a record whose four collection
fields are the extractor outputs on the raw text (empty lists, never
absent, when the matching section is empty) and whose raw text is the
full decoded document text chosen by the extension dispatch. -/
theorem C8_record_invariants :
    ∀ n p d : Str, ∀ r : ResumeData, parse n p d = Except.ok r →
      (r.raw_text = p ∨ r.raw_text = d) ∧
      r.personal_info = extract_personal_info r.raw_text ∧
      r.education = extract_education r.raw_text ∧
      r.work_experience = extract_work_experience r.raw_text ∧
      r.skills = extract_skills r.raw_text ∧
      r.certifications = extract_certifications r.raw_text ∧
      ((extract_section r.raw_text education_headers).isEmpty = true →
        r.education = []) ∧
      ((extract_section r.raw_text experience_headers).isEmpty = true →
        r.work_experience = []) ∧
      ((extract_section r.raw_text skills_headers).isEmpty = true →
        r.skills = []) ∧
      ((extract_section r.raw_text certification_headers).isEmpty = true →
        r.certifications = []) := by
  intro n p d r h
  simp only [parse] at h
  split at h
  · simp only [Except.map, Except.ok.injEq] at h
    subst h
    refine ⟨Or.inl rfl, rfl, rfl, rfl, rfl, rfl, ?_, ?_, ?_, ?_⟩ <;>
      intro hs <;>
      simp [extract_education, extract_work_experience, extract_skills,
        extract_certifications, hs]
  · split at h
    · simp only [Except.map, Except.ok.injEq] at h
      subst h
      refine ⟨Or.inr rfl, rfl, rfl, rfl, rfl, rfl, ?_, ?_, ?_, ?_⟩ <;>
        intro hs <;>
        simp [extract_education, extract_work_experience, extract_skills,
          extract_certifications, hs]
    · simp only [Except.map] at h
      exact absurd h (by simp)

/-- C8, witness: a concrete successful parse and its invariants. -/
theorem C8_witness :
    parse (("resume.pdf").data) (("A").data) (("B").data) =
      Except.ok
        { personal_info := { name := some (("A").data) }, education := [],
          work_experience := [], skills := [], certifications := [],
          raw_text := ("A").data } ∧
    ((("A").data : Str) = ("A").data ∨ (("A").data : Str) = ("B").data) ∧
    ([] : List Education) = extract_education (("A").data) ∧
    ([] : List Str) = extract_skills (("A").data) :=
  have h :
      parse (("resume.pdf").data) (("A").data) (("B").data) =
        Except.ok
          { personal_info := { name := some (("A").data) }, education := [],
            work_experience := [], skills := [], certifications := [],
            raw_text := ("A").data } := by decide
  have hc := C8_record_invariants (("resume.pdf").data) (("A").data)
    (("B").data) _ h
  ⟨h, hc.1, hc.2.2.1, hc.2.2.2.2.1⟩

/-- C9: the serialized block for the analysis step is the five category
headers in fixed order, each followed by a block of entries each rendered
as a line prefixed with a dash; a category with no entries still emits
its header with no item lines, as the all-empty record shows. -/
theorem C9_serialized_block (r : ResumeData) :
    (∃ b1 b2 b3 b4 b5 : Str,
      format_resume_data r =
        ("Personal Information:\n").data ++ b1 ++ ("\nEducation:\n").data ++
          b2 ++ ("\nWork Experience:\n").data ++ b3 ++ ("\nSkills:\n").data ++
          b4 ++ ("\nCertifications:\n").data ++ b5 ∧
      dash_block b1 ∧ dash_block b2 ∧ dash_block b3 ∧ dash_block b4 ∧
      dash_block b5) ∧
    format_resume_data
        { personal_info := {}, education := [], work_experience := [],
          skills := [], certifications := [], raw_text := [] } =
      (("Personal Information:\n\nEducation:\n\nWork Experience:\n" ++
        "\nSkills:\n\nCertifications:\n")).data := by
  constructor
  · refine ⟨lines_of personal_info_line (personal_info_items r.personal_info),
      lines_of education_line r.education,
      lines_of experience_line r.work_experience,
      lines_of item_line r.skills, lines_of item_line r.certifications,
      rfl, ?_, ?_, ?_, ?_, ?_⟩
    · exact dash_block_lines_of _ _ personal_info_line_shape
    · refine dash_block_lines_of _ _ fun e => Or.inr ⟨e.degree ++
        (" at ").data ++ e.institution, ?_⟩
      simp [education_line, item_line]
    · refine dash_block_lines_of _ _ fun e => Or.inr ⟨e.position ++
        (" at ").data ++ e.company, ?_⟩
      simp [experience_line, item_line]
    · exact dash_block_lines_of _ _ fun sk => Or.inr ⟨sk, rfl⟩
    · exact dash_block_lines_of _ _ fun ce => Or.inr ⟨ce, rfl⟩
  · decide

/-- C10, counterexample: the line starting with a parenthesis and a space
matches the month marker, both regexes match, but the first run of
company-class (resp. position-class) characters is a single space, so the
produced record has EMPTY company and position strings. -/
theorem C10_counterexample :
    (re_search month_pats (("( (Jan 2020").data)).isSome = true ∧
    re_search company_pats (("( (Jan 2020").data) =
      some (((" ").data, some ((" ").data)) : Str × Option Str) ∧
    experience_from_section (("( (Jan 2020").data) =
      [{ company := [], position := [] }] := by
  refine ⟨by decide, by decide, ?_⟩
  decide

/-- C10, amended: on every line matching the month-name plus 4-digit-year
marker both the company regex and the position regex necessarily find a
match (the month name is a run of letters, so the Unknown-Company and
Unknown-Position default branches are unreachable); the resulting company
and position are the stripped first class runs, which may be empty when
that run is all whitespace. -/
theorem C10_marker_line_regexes :
    ∀ line : Str, (re_search month_pats line).isSome = true →
      (re_search company_pats line).isSome = true ∧
      (re_search position_pats line).isSome = true := by
  intro line h
  have halpha : line.any Char.isAlpha = true :=
    month_search_any_alpha none line h
  obtain ⟨c, hc, hca⟩ := List.any_eq_true.mp halpha
  constructor
  · simp only [re_search, company_pats]
    apply grp1_searchFrom_of_any
    exact List.any_eq_true.mpr
      ⟨c, hc, by simp [companyChar, Char.isAlphanum, hca]⟩
  · simp only [re_search, position_pats]
    apply grp1_searchFrom_of_any
    exact List.any_eq_true.mpr ⟨c, hc, by simp [positionChar, hca]⟩

/-- C10, witness: the marker fact at a concrete marker line. -/
theorem C10_witness :
    (re_search month_pats (("Acme Corp - Jan 2020").data)).isSome = true ∧
    (re_search company_pats (("Acme Corp - Jan 2020").data)).isSome = true ∧
    (re_search position_pats (("Acme Corp - Jan 2020").data)).isSome = true :=
  ⟨by decide,
   (C10_marker_line_regexes (("Acme Corp - Jan 2020").data) (by decide)).1,
   (C10_marker_line_regexes (("Acme Corp - Jan 2020").data) (by decide)).2⟩

/-- C1, counterexample: on the claim's own three-line text the section
body is empty (the body line is dropped because its successor is the
all-uppercase EXPERIENCE line) and education extraction returns no
record, contradicting the claimed body and the claimed single record. -/
theorem C1_counterexample :
    extract_section (("EDUCATION\nBachelor of Science, MIT\nEXPERIENCE").data)
        education_headers = [] ∧
    extract_section (("EDUCATION\nBachelor of Science, MIT\nEXPERIENCE").data)
        education_headers ≠ ("Bachelor of Science, MIT").data ∧
    extract_education
        (("EDUCATION\nBachelor of Science, MIT\nEXPERIENCE").data) = [] ∧
    extract_education
        (("EDUCATION\nBachelor of Science, MIT\nEXPERIENCE").data) ≠
      [{ institution := ("MIT").data,
         degree := ("Bachelor of Science").data }] := by
  refine ⟨by decide, by decide, by decide, by decide⟩

/-- C1, amended: section extraction returns the lines strictly after the
first alias-containing line, accumulated only while the FOLLOWING line is
not a non-blank all-uppercase line: the line immediately before the next
all-uppercase heading is dropped along with the heading and everything
after it (at end of text all remaining lines are kept), joined with
newlines and whitespace-trimmed; in particular, for the text EDUCATION /
Bachelor of Science, MIT / EXPERIENCE the section body is empty and
education extraction returns no records. -/
theorem C1_section_boundary :
    (∀ (headers pres bs more : List Str) (hline U : Str),
      (∀ p ∈ pres, line_has_header headers p = false ∧ no_nl p = true) →
      line_has_header headers hline = true → no_nl hline = true →
      bs ≠ [] →
      (∀ b ∈ bs, line_has_header headers b = false ∧
        upper_boundary b = false ∧ no_nl b = true) →
      upper_boundary U = true → no_nl U = true →
      (∀ m ∈ more, no_nl m = true) →
      extract_section (nl_join (pres ++ hline :: (bs ++ U :: more))) headers =
        pyStrip (nl_join bs.dropLast)) ∧
    extract_section (("EDUCATION\nBachelor of Science, MIT\nEXPERIENCE").data)
        education_headers = pyStrip (nl_join ([] : List Str)) := by
  constructor
  · intro headers pres bs more hline U hpres hh hhn hbs hb hU hUn hmore
    unfold extract_section
    have hsl : split_lines (nl_join (pres ++ hline :: (bs ++ U :: more))) =
        pres ++ hline :: (bs ++ U :: more) := by
      apply split_lines_nl_join
      · simp
      · intro l hl
        rcases List.mem_append.mp hl with h1 | h2
        · exact (hpres l h1).2
        · rcases List.mem_cons.mp h2 with h3 | h4
          · rw [h3]; exact hhn
          · rcases List.mem_append.mp h4 with h5 | h6
            · exact (hb l h5).2.2
            · rcases List.mem_cons.mp h6 with h7 | h8
              · rw [h7]; exact hUn
              · exact hmore l h8
    rw [hsl,
      section_loop_skip headers pres _ (fun p hp => (hpres p hp).1),
      section_loop_cons_enter headers hline _ false hh,
      section_loop_body headers bs U more hbs
        (fun b hb2 => ⟨(hb b hb2).1, (hb b hb2).2.1⟩) hU]
    exact pyStrip_foldr_join _
  · decide

/-- C1, witness: the boundary fact at the claim's own example, pres and
trailing lines empty, one body line, EXPERIENCE as the next heading. -/
theorem C1_witness :
    extract_section
        (nl_join (([] : List Str) ++ ("EDUCATION").data ::
          ([("Bachelor of Science, MIT").data] ++ ("EXPERIENCE").data :: [])))
        education_headers =
      pyStrip (nl_join ([("Bachelor of Science, MIT").data] : List Str).dropLast) :=
  C1_section_boundary.1 education_headers [] [("Bachelor of Science, MIT").data]
    [] (("EDUCATION").data) (("EXPERIENCE").data)
    (by simp) (by decide) (by decide) (by simp)
    (by
      intro b hb
      rw [List.mem_singleton] at hb
      subst hb
      exact ⟨by decide, by decide, by decide⟩)
    (by decide) (by decide) (by simp)

end Resume
